import Mathlib

/-!
Verification development for the task-manager CLI tutorial code.

The Go source under scrutiny lives in `docs/building-tutorial.md`
(`internal/task/task.go`, `internal/task/storage.go`, `cmd/add.go`,
`cmd/list.go`, `cmd/complete.go`) and in
`docs/learn/phase-five/task-manager-cli/main.go`.

Modelling conventions:
- Go `time.Time` values are opaque instants; we model them as integers
  (`Time := Int`), serialized injectively.  `encoding/json` serializes a
  Go time injectively as an RFC3339 string; we keep the injectivity and
  drop the textual format, which no property here depends on.
- The backing file is modelled at the granularity the code observes it:
  a file is missing, empty, holds a well-formed JSON document, or holds
  text that is not well-formed JSON.  A write that stops before the
  document is fully written leaves either an empty file (nothing written)
  or text that is not well-formed JSON, because every nonempty strict
  prefix of a serialized JSON array lacks its closing bracket.
- `os.WriteFile` in `FileStorage.SaveTasks` opens the target path itself
  (no temporary file, no rename); the `WriteOutcome` oracle chooses
  whether the write succeeds, fails at `os.MkdirAll`, or stops after `k`
  bytes of the new document.
- Custom string types (`task.Status`, `task.Priority`) are Go strings
  with no validation anywhere in the code, so they are plain `String`.
-/

set_option autoImplicit false

namespace TaskManager

/-- Instants of `time.Time`, modelled as integers. -/
abbrev Time := Int

/-- `task.Task` from `internal/task/task.go`: json tags `id`,
`description`, `priority`, `status`, `due_date,omitempty`, `created_at`,
`completed_at,omitempty`, `tags,omitempty`. -/
structure Task where
  ID : Int
  Description : String
  Priority : String
  Status : String
  DueDate : Option Time
  CreatedAt : Time
  CompletedAt : Option Time
  Tags : List String
deriving DecidableEq, Repr, Inhabited

/-- `Task.Complete` from `internal/task/task.go`: sets the status to
completed and records the completion instant. -/
def Task.Complete (t : Task) (now : Time) : Task :=
  { t with Status := "completed", CompletedAt := some now }

/-- JSON documents, as produced by `encoding/json`. -/
inductive Json where
  | null
  | bool (b : Bool)
  | num (n : Int)
  | str (s : String)
  | arr (elems : List Json)
  | obj (fields : List (String × Json))
deriving Repr

/-- Key lookup in a JSON object.  `encoding/json` lets a later duplicate
key overwrite an earlier one, so the last occurrence wins. -/
def lookupField (fields : List (String × Json)) (key : String) : Option Json :=
  match fields with
  | [] => none
  | (k, v) :: rest =>
    match lookupField rest key with
    | some v2 => some v2
    | none => if k = key then some v else none

/-- `json.Unmarshal` into a Go `int` field: a missing key or JSON null
leaves the zero value, a number is taken, any other shape is an error. -/
def decodeIntField : Option Json → Option Int
  | none => some 0
  | some .null => some 0
  | some (.num n) => some n
  | some _ => none

/-- `json.Unmarshal` into a Go `string` field. -/
def decodeStringField : Option Json → Option String
  | none => some ""
  | some .null => some ""
  | some (.str s) => some s
  | some _ => none

/-- `json.Unmarshal` into a Go `*time.Time` field: missing or null means
nil, an instant is taken, any other shape is an error. -/
def decodeOptTimeField : Option Json → Option (Option Time)
  | none => some none
  | some .null => some none
  | some (.num n) => some (some n)
  | some _ => none

/-- `json.Unmarshal` of one JSON array element into a Go `string`. -/
def decodeJsonString : Json → Option String
  | .null => some ""
  | .str s => some s
  | _ => none

/-- `json.Unmarshal` of a JSON array into a Go `[]string`. -/
def decodeJsonStrings : List Json → Option (List String)
  | [] => some []
  | j :: rest =>
    match decodeJsonString j, decodeJsonStrings rest with
    | some s, some ss => some (s :: ss)
    | _, _ => none

/-- `json.Unmarshal` into a Go `[]string` field. -/
def decodeTagsField : Option Json → Option (List String)
  | none => some []
  | some .null => some []
  | some (.arr xs) => decodeJsonStrings xs
  | some _ => none

/-- The zero value of `task.Task`, produced when `json.Unmarshal` meets a
JSON null where a task object is expected. -/
def zeroTask : Task :=
  { ID := 0, Description := "", Priority := "", Status := "",
    DueDate := none, CreatedAt := 0, CompletedAt := none, Tags := [] }

/-- `json.Unmarshal` of one JSON value into a `task.Task`: unknown keys
are ignored, missing keys leave zero values, a wrongly typed value is a
decode error. -/
def decodeTask : Json → Option Task
  | .null => some zeroTask
  | .obj fields => do
    let id ← decodeIntField (lookupField fields "id")
    let description ← decodeStringField (lookupField fields "description")
    let priority ← decodeStringField (lookupField fields "priority")
    let status ← decodeStringField (lookupField fields "status")
    let dueDate ← decodeOptTimeField (lookupField fields "due_date")
    let createdAt ← decodeIntField (lookupField fields "created_at")
    let completedAt ← decodeOptTimeField (lookupField fields "completed_at")
    let tags ← decodeTagsField (lookupField fields "tags")
    some { ID := id, Description := description, Priority := priority,
           Status := status, DueDate := dueDate, CreatedAt := createdAt,
           CompletedAt := completedAt, Tags := tags }
  | _ => none

/-- `json.Unmarshal` of a JSON array into a Go `[]Task`, element by
element; any failing element fails the whole decode. -/
def decodeTaskList : List Json → Option (List Task)
  | [] => some []
  | j :: rest =>
    match decodeTask j, decodeTaskList rest with
    | some t, some ts => some (t :: ts)
    | _, _ => none

/-- `json.Unmarshal(data, &tasks)` for `var tasks []Task`: a JSON null
leaves the nil slice, an array decodes elementwise, anything else errors. -/
def decodeTasks : Json → Option (List Task)
  | .null => some []
  | .arr elems => decodeTaskList elems
  | _ => none

/-- `json.Marshal` of one `task.Task`: fields in struct order, with
`due_date`, `completed_at` and `tags` omitted when nil or empty
(their tags carry `omitempty`). -/
def encodeTask (t : Task) : Json :=
  .obj ([("id", .num t.ID), ("description", .str t.Description),
         ("priority", .str t.Priority), ("status", .str t.Status)]
    ++ (match t.DueDate with
        | none => []
        | some d => [("due_date", .num d)])
    ++ [("created_at", .num t.CreatedAt)]
    ++ (match t.CompletedAt with
        | none => []
        | some c => [("completed_at", .num c)])
    ++ (match t.Tags with
        | [] => []
        | tags => [("tags", .arr (tags.map Json.str))]))

/-- `json.MarshalIndent(tasks, ...)`: the serialized document is a JSON
array of task objects. -/
def encodeTasks (tasks : List Task) : Json :=
  .arr (tasks.map encodeTask)

/-- Contents of an existing backing file, at the granularity the code
distinguishes: empty, a well-formed JSON document, or text that is not
well-formed JSON. -/
inductive Content where
  | emptyBytes
  | wellFormed (j : Json)
  | malformed
deriving Repr

/-- The backing file: missing, or present with some contents. -/
inductive FileData where
  | missing
  | present (c : Content)
deriving Repr

/-- Error taxonomy of the store, matching the wrapped errors the Go code
returns: a parse failure of the backing file, an OS-level write failure,
an empty task description, and an unknown task id. -/
inductive StoreError where
  | corruptStore
  | persistence
  | validation
  | notFound (id : Int)
deriving DecidableEq, Repr

/-- Fate of one persisting step: full success; a failure before any byte
reaches the file (`os.MkdirAll` fails, or the open in `os.WriteFile`
fails), leaving the file as it was; or a write that stops after `k`
bytes of the new document (with `k` smaller than the document, so the
write fails). -/
inductive WriteOutcome where
  | success
  | failBeforeWrite
  | failAfter (k : Nat)
deriving DecidableEq, Repr

/-- `FileStorage.GetTasks` from `internal/task/storage.go`: a missing
file is an empty collection, an empty file is an empty collection, and a
parse failure is an error. -/
def GetTasks : FileData → Except StoreError (List Task)
  | .missing => .ok []
  | .present .emptyBytes => .ok []
  | .present (.wellFormed j) =>
    match decodeTasks j with
    | some tasks => .ok tasks
    | none => .error .corruptStore
  | .present .malformed => .error .corruptStore

/-- `FileStorage.SaveTasks` from `internal/task/storage.go`: ensure the
directory exists, marshal the collection, then `os.WriteFile` directly
onto the backing path.  There is no temporary file and no rename, so a
write that stops after `k` bytes replaces the file with a strict prefix
of the new document: empty when `k = 0`, otherwise text that is not
well-formed JSON. -/
def SaveTasks (tasks : List Task) (fd : FileData) (o : WriteOutcome) :
    FileData × Except StoreError Unit :=
  match o with
  | .failBeforeWrite => (fd, .error .persistence)
  | .success => (.present (.wellFormed (encodeTasks tasks)), .ok ())
  | .failAfter k =>
    (.present (if k = 0 then .emptyBytes else .malformed), .error .persistence)

/-- `FileStorage.AddTask` from `internal/task/storage.go`: load the
collection, assign `ID := len(tasks) + 1`, append, save everything. -/
def AddTask (task : Task) (fd : FileData) (o : WriteOutcome) :
    FileData × Except StoreError Unit :=
  match GetTasks fd with
  | .error e => (fd, .error e)
  | .ok tasks =>
    let task := { task with ID := (tasks.length : Int) + 1 }
    SaveTasks (tasks ++ [task]) fd o

/-- The task literal built in `addTask` in `cmd/add.go`: pending status,
creation instant now, no completion instant, id left to the store. -/
def newTask (description priority : String) (due : Option Time) (now : Time) : Task :=
  { ID := 0, Description := description, Priority := priority,
    Status := "pending", DueDate := due, CreatedAt := now,
    CompletedAt := none, Tags := [] }

/-- `addTask` from `cmd/add.go`, with the description already gathered
from the arguments or the interactive prompt and the due date already
parsed: an empty description is rejected before the store is touched. -/
def addTask (description priority : String) (due : Option Time) (now : Time)
    (fd : FileData) (o : WriteOutcome) : FileData × Except StoreError Unit :=
  if description = "" then (fd, .error .validation)
  else AddTask (newTask description priority due now) fd o

/-- `filterTasks` from `cmd/list.go`: the three `continue` conditions of
the Go loop, in order — a status filter mismatch, the default hiding of
completed tasks when no status filter is given and `--all` is not set,
and a priority filter mismatch. -/
def filterTasks : List Task → String → String → Bool → List Task
  | [], _, _, _ => []
  | t :: rest, status, priority, showAll =>
    if status ≠ "" ∧ t.Status ≠ status then
      filterTasks rest status priority showAll
    else if ¬showAll ∧ status = "" ∧ t.Status = "completed" then
      filterTasks rest status priority showAll
    else if priority ≠ "" ∧ t.Priority ≠ priority then
      filterTasks rest status priority showAll
    else t :: filterTasks rest status priority showAll

/-- `listTasks` from `cmd/list.go`, as the collection it reports: load,
then filter.  (The early returns for an empty load or an empty filter
result only change the message printed, not the collection.) -/
def listTasks (status priority : String) (showAll : Bool) (fd : FileData) :
    Except StoreError (List Task) :=
  match GetTasks fd with
  | .error e => .error e
  | .ok tasks => .ok (filterTasks tasks status priority showAll)

/-- What `completeTask` reports on its non-error paths: the success
message with the completed task, or the distinct already-completed
warning. -/
inductive CompleteOutcome where
  | completed (t : Task)
  | alreadyCompleted
deriving DecidableEq, Repr

/-- `completeTask` from `cmd/complete.go`: load the collection, range
check the id against the collection length, take the task at position
`taskID - 1`, warn and stop if it is already completed, otherwise mark
it completed and save the whole collection. -/
def completeTask (taskID : Int) (now : Time) (fd : FileData) (o : WriteOutcome) :
    FileData × Except StoreError CompleteOutcome :=
  match GetTasks fd with
  | .error e => (fd, .error e)
  | .ok tasks =>
    if taskID < 1 ∨ taskID > (tasks.length : Int) then
      (fd, .error (.notFound taskID))
    else
      let idx := (taskID - 1).toNat
      let target := tasks.getD idx default
      if target.Status = "completed" then
        (fd, .ok .alreadyCompleted)
      else
        let tasks2 := tasks.set idx (target.Complete now)
        match SaveTasks tasks2 fd o with
        | (fd2, .ok ()) => (fd2, .ok (.completed (target.Complete now)))
        | (fd2, .error e) => (fd2, .error e)

/-- One CLI invocation that mutates the store. -/
inductive Op where
  | addOp (description priority : String) (due : Option Time) (now : Time)
  | completeOp (taskID : Int) (now : Time)
deriving DecidableEq, Repr

/-- The backing file after one invocation, with the disk cooperating. -/
def applyOp (fd : FileData) : Op → FileData
  | .addOp d p due now => (addTask d p due now fd .success).1
  | .completeOp taskID now => (completeTask taskID now fd .success).1

/-- The backing file after a sequence of invocations. -/
def runOps (ops : List Op) (fd : FileData) : FileData :=
  match ops with
  | [] => fd
  | op :: rest => runOps rest (applyOp fd op)

/-- Arguments of one `add` invocation. -/
structure AddSpec where
  description : String
  priority : String
  due : Option Time
  now : Time
deriving DecidableEq, Repr, Inhabited

/-- The backing file after a sequence of `add` invocations. -/
def runAdds (specs : List AddSpec) (fd : FileData) : FileData :=
  match specs with
  | [] => fd
  | s :: rest => runAdds rest (addTask s.description s.priority s.due s.now fd .success).1

/-- The task an `add` invocation stores when the collection holds
`sizeBefore` tasks at insertion time. -/
def taskOfSpec (sizeBefore : Nat) (s : AddSpec) : Task :=
  { ID := (sizeBefore : Int) + 1, Description := s.description,
    Priority := s.priority, Status := "pending", DueDate := s.due,
    CreatedAt := s.now, CompletedAt := none, Tags := [] }

/-- The tasks a sequence of `add` invocations stores, starting from a
collection of `sizeBefore` tasks. -/
def expectedTasks (sizeBefore : Nat) : List AddSpec → List Task
  | [] => []
  | s :: rest => taskOfSpec sizeBefore s :: expectedTasks (sizeBefore + 1) rest

/-- A backing file holding exactly the given collection. -/
def fdOf (tasks : List Task) : FileData :=
  .present (.wellFormed (encodeTasks tasks))

end TaskManager

namespace TaskManager.PhaseFive

/-- `Task` from `docs/learn/phase-five/task-manager-cli/main.go`, json
tags `id`, `title`, `description`, `completed`, `created_at`, none of
them optional. -/
structure Task where
  ID : Int
  Title : String
  Description : String
  Completed : Bool
  CreatedAt : Time
deriving DecidableEq, Repr, Inhabited

/-- `json.Unmarshal` into a Go `bool` field. -/
def decodeBoolField : Option Json → Option Bool
  | none => some false
  | some .null => some false
  | some (.bool b) => some b
  | some _ => none

/-- `json.Marshal` of one phase-five `Task`, fields in struct order. -/
def encodeTask (t : Task) : Json :=
  .obj [("id", .num t.ID), ("title", .str t.Title),
        ("description", .str t.Description), ("completed", .bool t.Completed),
        ("created_at", .num t.CreatedAt)]

/-- `json.Unmarshal` of one JSON value into a phase-five `Task`. -/
def decodeTask : Json → Option Task
  | .null => some { ID := 0, Title := "", Description := "",
                    Completed := false, CreatedAt := 0 }
  | .obj fields => do
    let id ← decodeIntField (lookupField fields "id")
    let title ← decodeStringField (lookupField fields "title")
    let description ← decodeStringField (lookupField fields "description")
    let completed ← decodeBoolField (lookupField fields "completed")
    let createdAt ← decodeIntField (lookupField fields "created_at")
    some { ID := id, Title := title, Description := description,
           Completed := completed, CreatedAt := createdAt }
  | _ => none

/-- `json.Unmarshal` of a JSON array into a phase-five `[]Task`. -/
def decodeTaskList : List Json → Option (List Task)
  | [] => some []
  | j :: rest =>
    match decodeTask j, decodeTaskList rest with
    | some t, some ts => some (t :: ts)
    | _, _ => none

/-- `json.Unmarshal(data, &tasks)` for the phase-five `[]Task`. -/
def decodeTasks : Json → Option (List Task)
  | .null => some []
  | .arr elems => decodeTaskList elems
  | _ => none

/-- `saveTasks` from phase five: `json.MarshalIndent` then `os.WriteFile`
directly onto the target path. -/
def saveTasks (tasks : List Task) (fd : FileData) (o : WriteOutcome) :
    FileData × Except StoreError Unit :=
  match o with
  | .failBeforeWrite => (fd, .error .persistence)
  | .success => (.present (.wellFormed (.arr (tasks.map encodeTask))), .ok ())
  | .failAfter k =>
    (.present (if k = 0 then .emptyBytes else .malformed), .error .persistence)

/-- `loadTasks` from phase five: `os.ReadFile` (a missing file is an
error here, unlike `FileStorage.GetTasks`) then `json.Unmarshal`. -/
def loadTasks : FileData → Except StoreError (List Task)
  | .missing => .error .persistence
  | .present .emptyBytes => .error .corruptStore
  | .present (.wellFormed j) =>
    match decodeTasks j with
    | some tasks => .ok tasks
    | none => .error .corruptStore
  | .present .malformed => .error .corruptStore

end TaskManager.PhaseFive

namespace TaskManager

/-- A concrete pending task as the first `add` of a session stores it. -/
def sampleOne : Task :=
  { ID := 1, Description := "Learn Go basics", Priority := "high",
    Status := "pending", DueDate := none, CreatedAt := 0,
    CompletedAt := none, Tags := [] }

/-- A concrete pending task as the second `add` of a session stores it. -/
def sampleTwo : Task :=
  { ID := 2, Description := "Build CLI tool", Priority := "medium",
    Status := "pending", DueDate := none, CreatedAt := 1,
    CompletedAt := none, Tags := [] }

/-- A concrete task that is already completed. -/
def doneTask : Task :=
  { ID := 1, Description := "Ship release", Priority := "medium",
    Status := "completed", DueDate := none, CreatedAt := 0,
    CompletedAt := some 5, Tags := [] }

/-- A task as an externally edited backing file might hold it: id field 5
at position 1. -/
def editedFive : Task :=
  { ID := 5, Description := "edited five", Priority := "low",
    Status := "pending", DueDate := none, CreatedAt := 0,
    CompletedAt := none, Tags := [] }

/-- A task as an externally edited backing file might hold it: id field 6
at position 2. -/
def editedSix : Task :=
  { ID := 6, Description := "edited six", Priority := "low",
    Status := "pending", DueDate := none, CreatedAt := 0,
    CompletedAt := none, Tags := [] }

/-- An externally edited store: id fields do not equal positions. -/
def editedStore : List Task := [editedFive, editedSix]

/-- The task stored by the one `add` of the C8 witness session. -/
def witnessTask : Task := taskOfSpec 0 ⟨"Write tests", "low", none, 0⟩

/-- The data-model invariant of C8, for one task: the completion instant
is recorded exactly on completed tasks. -/
def TaskConsistent (t : Task) : Prop :=
  t.CompletedAt ≠ none ↔ t.Status = "completed"

/-- Every collection the backing file decodes to satisfies the task
invariant. -/
def StoreConsistent (fd : FileData) : Prop :=
  ∀ tasks, GetTasks fd = .ok tasks → ∀ t ∈ tasks, TaskConsistent t

lemma decodeJsonStrings_map_str (l : List String) :
    decodeJsonStrings (l.map Json.str) = some l := by
  induction l with
  | nil => rfl
  | cons a l ih => simp [decodeJsonStrings, decodeJsonString, ih]

lemma decodeTask_encodeTask (t : Task) : decodeTask (encodeTask t) = some t := by
  obtain ⟨id, desc, prio, status, due, created, completed, tags⟩ := t
  cases due <;> cases completed <;> cases tags <;>
    simp [encodeTask, decodeTask, lookupField, decodeIntField, decodeStringField,
      decodeOptTimeField, decodeTagsField, decodeJsonStrings,
      decodeJsonString, decodeJsonStrings_map_str]

lemma decodeTasks_encodeTasks (tasks : List Task) :
    decodeTasks (encodeTasks tasks) = some tasks := by
  simp only [encodeTasks, decodeTasks]
  induction tasks with
  | nil => rfl
  | cons t rest ih => simp [decodeTaskList, decodeTask_encodeTask, ih]

lemma GetTasks_fdOf (tasks : List Task) : GetTasks (fdOf tasks) = .ok tasks := by
  simp [fdOf, GetTasks, decodeTasks_encodeTasks]

lemma SaveTasks_success (tasks : List Task) (fd : FileData) :
    SaveTasks tasks fd .success = (fdOf tasks, .ok ()) := rfl

lemma addTask_success (d p : String) (due : Option Time) (now : Time)
    (fd : FileData) (tasks : List Task)
    (hd : d ≠ "") (h : GetTasks fd = .ok tasks) :
    addTask d p due now fd .success =
      (fdOf (tasks ++ [taskOfSpec tasks.length ⟨d, p, due, now⟩]), .ok ()) := by
  simp [addTask, hd, AddTask, h, SaveTasks, fdOf, taskOfSpec, newTask]

lemma GetTasks_runAdds (specs : List AddSpec) :
    ∀ (fd : FileData) (tasks : List Task), GetTasks fd = .ok tasks →
      (∀ s ∈ specs, s.description ≠ "") →
      GetTasks (runAdds specs fd) = .ok (tasks ++ expectedTasks tasks.length specs) := by
  induction specs with
  | nil =>
    intro fd tasks h _
    simpa [runAdds, expectedTasks] using h
  | cons s rest ih =>
    intro fd tasks h hne
    have hs : s.description ≠ "" := hne s (by simp)
    have h2 : GetTasks (addTask s.description s.priority s.due s.now fd .success).1 =
        .ok (tasks ++ [taskOfSpec tasks.length s]) := by
      rw [addTask_success s.description s.priority s.due s.now fd tasks hs h]
      exact GetTasks_fdOf _
    rw [runAdds]
    rw [ih _ _ h2 (fun x hx => hne x (by simp [hx]))]
    simp [expectedTasks]

lemma expectedTasks_length (specs : List AddSpec) :
    ∀ n, (expectedTasks n specs).length = specs.length := by
  induction specs with
  | nil => intro n; rfl
  | cons s rest ih => intro n; simp [expectedTasks, ih]

lemma expectedTasks_get_ID (specs : List AddSpec) :
    ∀ (n i : Nat) (hi : i < (expectedTasks n specs).length),
      ((expectedTasks n specs).get ⟨i, hi⟩).ID = (n : Int) + i + 1 := by
  induction specs with
  | nil => intro n i hi; simp [expectedTasks] at hi
  | cons s rest ih =>
    intro n i hi
    cases i with
    | zero => simp [expectedTasks, taskOfSpec]
    | succ i =>
      have hi2 : i < (expectedTasks (n + 1) rest).length := by
        simpa [expectedTasks] using hi
      have := ih (n + 1) i hi2
      simp only [expectedTasks, List.get] at this ⊢
      rw [this]
      push_cast
      ring

lemma expectedTasks_getD (specs : List AddSpec) :
    ∀ (n i : Nat), i < specs.length →
      (expectedTasks n specs).getD i default = taskOfSpec (n + i) (specs.getD i default) := by
  induction specs with
  | nil => intro n i hi; simp at hi
  | cons s rest ih =>
    intro n i hi
    cases i with
    | zero => simp [expectedTasks]
    | succ i =>
      have := ih (n + 1) i (by simpa using hi)
      simp only [expectedTasks, List.getD_cons_succ]
      rw [this]
      congr 1
      omega

lemma expectedTasks_status (specs : List AddSpec) :
    ∀ n, ∀ t ∈ expectedTasks n specs, t.Status = "pending" ∧ t.CompletedAt = none := by
  induction specs with
  | nil => intro n t ht; simp [expectedTasks] at ht
  | cons s rest ih =>
    intro n t ht
    rw [expectedTasks] at ht
    rcases List.mem_cons.mp ht with h | h
    · subst h; exact ⟨rfl, rfl⟩
    · exact ih (n + 1) t h

lemma filterTasks_of_pending (tasks : List Task)
    (h : ∀ t ∈ tasks, t.Status = "pending") :
    filterTasks tasks "" "" false = tasks := by
  induction tasks with
  | nil => rfl
  | cons t rest ih =>
    have ht := h t (by simp)
    rw [filterTasks]
    rw [if_neg (by simp), if_neg (by simp [ht]), if_neg (by simp)]
    rw [ih (fun x hx => h x (by simp [hx]))]

/-- C1: for every sequence of Add operations (with their mandatory
nonempty descriptions) starting from an empty store, a subsequent List
with no filter returns exactly the tasks that were added, in insertion
order (the collection is `expectedTasks 0 specs`, the tasks built from
the add arguments in order), and their id values start at 1 and are
strictly increasing, hence unique: the task at position `i` carries
id `i + 1`, the collection size before its insertion plus one. -/
theorem add_sequence_list_ids (specs : List AddSpec)
    (hne : ∀ s ∈ specs, s.description ≠ "") :
    GetTasks (runAdds specs .missing) = .ok (expectedTasks 0 specs)
    ∧ listTasks "" "" false (runAdds specs .missing) = .ok (expectedTasks 0 specs)
    ∧ (expectedTasks 0 specs).length = specs.length
    ∧ (∀ (i : Nat) (hi : i < (expectedTasks 0 specs).length),
        ((expectedTasks 0 specs).get ⟨i, hi⟩).ID = (i : Int) + 1)
    ∧ (∀ i : Nat, i < specs.length →
        (expectedTasks 0 specs).getD i default = taskOfSpec i (specs.getD i default)) := by
  have h1 := GetTasks_runAdds specs .missing [] rfl hne
  simp only [List.nil_append, List.length_nil] at h1
  refine ⟨h1, ?_, expectedTasks_length specs 0, ?_, ?_⟩
  · simp only [listTasks, h1]
    rw [filterTasks_of_pending _ (fun t ht => (expectedTasks_status specs 0 t ht).1)]
  · intro i hi
    have := expectedTasks_get_ID specs 0 i hi
    simpa using this
  · intro i hi
    simpa using expectedTasks_getD specs 0 i hi

/-- Witness for C1 at a concrete one-element add sequence. -/
theorem add_sequence_list_ids_witness :
    GetTasks (runAdds [⟨"Write report", "high", none, 0⟩] .missing) =
      .ok (expectedTasks 0 [⟨"Write report", "high", none, 0⟩]) :=
  (add_sequence_list_ids [⟨"Write report", "high", none, 0⟩] (by decide)).1

/-- Counterexample for C2: saving a grown collection over a file that
holds one task, with the write stopping after one byte, does not leave
the prior contents intact — the file now holds text that is not
well-formed JSON, the call reports a persistence failure, and a
subsequent load fails with CorruptStoreError, so the previously stored
task is lost.  (There is no temporary-file step: `SaveTasks` performs
its one write directly on the backing path.) -/
theorem save_failure_destroys_prior :
    (SaveTasks [sampleOne, sampleTwo] (fdOf [sampleOne]) (.failAfter 1)).1 ≠ fdOf [sampleOne]
    ∧ (SaveTasks [sampleOne, sampleTwo] (fdOf [sampleOne]) (.failAfter 1)).2 =
        .error .persistence
    ∧ GetTasks (SaveTasks [sampleOne, sampleTwo] (fdOf [sampleOne]) (.failAfter 1)).1 =
        .error .corruptStore := by
  refine ⟨?_, rfl, rfl⟩
  simp [SaveTasks, fdOf]

/-- C2 (amended): SaveTasks writes the marshalled document directly onto
the backing file, with no temporary location and no atomic replacement.
Only a failure that happens before any byte is written (directory
creation or open) leaves the prior contents intact; a write that stops
after `k` bytes replaces the file with a strict prefix of the new
document — empty for `k = 0`, otherwise text that is not well-formed
JSON — and for `k ≠ 0` a subsequent load fails with CorruptStoreError,
so the prior contents do not survive every failed write. -/
theorem save_failure_amended (tasks : List Task) (fd : FileData) (k : Nat) :
    SaveTasks tasks fd .failBeforeWrite = (fd, .error .persistence)
    ∧ SaveTasks tasks fd (.failAfter k) =
        (.present (if k = 0 then .emptyBytes else .malformed), .error .persistence)
    ∧ (SaveTasks tasks fd .success).1 = fdOf tasks
    ∧ (k ≠ 0 → GetTasks (SaveTasks tasks fd (.failAfter k)).1 = .error .corruptStore) := by
  refine ⟨rfl, rfl, rfl, ?_⟩
  intro hk
  simp [SaveTasks, GetTasks, hk]

/-- Witness for C2 (amended) at a concrete truncated write. -/
theorem save_failure_amended_witness :
    GetTasks (SaveTasks [sampleOne] .missing (.failAfter 3)).1 = .error .corruptStore :=
  (save_failure_amended [sampleOne] .missing 3).2.2.2 (by decide)

/-- Counterexample for C3: a backing file stores exactly one task and it
is completed, yet a List with no filter at all (no status, no priority,
all flag unset) returns the empty collection, not the stored task. -/
theorem list_no_filter_hides_completed :
    GetTasks (fdOf [doneTask]) = .ok [doneTask]
    ∧ listTasks "" "" false (fdOf [doneTask]) = .ok [] :=
  ⟨GetTasks_fdOf [doneTask], by rfl⟩

/-- C3 (amended): filterTasks returns exactly the stored tasks matching
the status filter (absence imposes no status-filter restriction) and the
priority filter (absence imposes no restriction), except that when no
status filter is given and the all flag is unset, completed tasks are
additionally excluded.  So a List with no filter at all returns exactly
the non-completed stored tasks, while the all flag restores every
stored task; and List is GetTasks followed by this filter. -/
theorem list_filter_amended (tasks : List Task) (status priority : String) (showAll : Bool) :
    filterTasks tasks status priority showAll =
      tasks.filter (fun t =>
        decide ((status = "" ∨ t.Status = status)
          ∧ (showAll = true ∨ status ≠ "" ∨ t.Status ≠ "completed")
          ∧ (priority = "" ∨ t.Priority = priority)))
    ∧ filterTasks tasks "" "" true = tasks
    ∧ filterTasks tasks "" "" false =
        tasks.filter (fun t => decide (t.Status ≠ "completed"))
    ∧ (∀ (fd : FileData) (ts : List Task), GetTasks fd = .ok ts →
        listTasks status priority showAll fd = .ok (filterTasks ts status priority showAll)) := by
  refine ⟨?_, ?_, ?_, ?_⟩
  · induction tasks with
    | nil => simp [filterTasks]
    | cons t rest ih =>
      rw [filterTasks, List.filter_cons]
      by_cases h1 : status ≠ "" ∧ t.Status ≠ status
      · have hP : ¬((status = "" ∨ t.Status = status)
            ∧ (showAll = true ∨ status ≠ "" ∨ t.Status ≠ "completed")
            ∧ (priority = "" ∨ t.Priority = priority)) := by tauto
        rw [if_pos h1, ih]
        simp [hP]
      · by_cases h2 : ¬showAll ∧ status = "" ∧ t.Status = "completed"
        · have hP : ¬((status = "" ∨ t.Status = status)
              ∧ (showAll = true ∨ status ≠ "" ∨ t.Status ≠ "completed")
              ∧ (priority = "" ∨ t.Priority = priority)) := by tauto
          rw [if_neg h1, if_pos h2, ih]
          simp [hP]
        · by_cases h3 : priority ≠ "" ∧ t.Priority ≠ priority
          · have hP : ¬((status = "" ∨ t.Status = status)
                ∧ (showAll = true ∨ status ≠ "" ∨ t.Status ≠ "completed")
                ∧ (priority = "" ∨ t.Priority = priority)) := by tauto
            rw [if_neg h1, if_neg h2, if_pos h3, ih]
            simp [hP]
          · have hP : (status = "" ∨ t.Status = status)
                ∧ (showAll = true ∨ status ≠ "" ∨ t.Status ≠ "completed")
                ∧ (priority = "" ∨ t.Priority = priority) := by tauto
            rw [if_neg h1, if_neg h2, if_neg h3, ih]
            simp [hP]
  · induction tasks with
    | nil => rfl
    | cons t rest ih =>
      rw [filterTasks, if_neg (by simp), if_neg (by simp), if_neg (by simp), ih]
  · induction tasks with
    | nil => rfl
    | cons t rest ih =>
      rw [filterTasks, List.filter_cons]
      by_cases hc : t.Status = "completed"
      · rw [if_neg (by simp), if_pos (by simp [hc]), ih]
        simp [hc]
      · rw [if_neg (by simp), if_neg (by simp [hc]), if_neg (by simp), ih]
        simp [hc]
  · intro fd ts h
    simp only [listTasks, h]

/-- Witness for C3 (amended) at a concrete store and filter. -/
theorem list_filter_amended_witness :
    listTasks "pending" "" false (fdOf [doneTask]) =
      .ok (filterTasks [doneTask] "pending" "" false) :=
  (list_filter_amended [doneTask] "pending" "" false).2.2.2
    (fdOf [doneTask]) [doneTask] (by rfl)

/-- C4: Complete on a task that is already completed is a no-op: the
backing file comes back untouched, so no field of any stored task (its
completedAt value included) changes; the call does not return an error;
and the reported outcome is the distinct already-completed warning,
never the success report. -/
theorem complete_already_completed_noop (fd : FileData) (tasks : List Task)
    (taskID : Int) (now : Time) (o : WriteOutcome)
    (h : GetTasks fd = .ok tasks)
    (h1 : 1 ≤ taskID) (h2 : taskID ≤ (tasks.length : Int))
    (hc : (tasks.getD (taskID - 1).toNat default).Status = "completed") :
    completeTask taskID now fd o = (fd, .ok .alreadyCompleted)
    ∧ (∀ t : Task, (Except.ok CompleteOutcome.alreadyCompleted :
        Except StoreError CompleteOutcome) ≠ .ok (.completed t))
    ∧ (∀ e : StoreError, (Except.ok CompleteOutcome.alreadyCompleted :
        Except StoreError CompleteOutcome) ≠ .error e) := by
  have hrange : ¬(taskID < 1 ∨ taskID > (tasks.length : Int)) := by omega
  refine ⟨?_, by simp, by simp⟩
  have hc2 : (tasks[taskID.toNat - 1]?.getD default).Status = "completed" := by
    simpa using hc
  simp [completeTask, h, hrange, hc2]

/-- Witness for C4 on a concrete single-task completed store. -/
theorem complete_already_completed_noop_witness :
    completeTask 1 7 (fdOf [doneTask]) .success = (fdOf [doneTask], .ok .alreadyCompleted) :=
  (complete_already_completed_noop (fdOf [doneTask]) [doneTask] 1 7 .success
    (by rfl) (by decide) (by decide) (by decide)).1

/-- C5: List on a missing backing file and List on an existing but empty
backing file both return the empty collection without error; a backing
file whose contents do not decode as the expected JSON document — text
that is not well-formed JSON, or a well-formed document of the wrong
shape — makes the load fail with CorruptStoreError, never silently
suppressed. -/
theorem gettasks_boundary :
    GetTasks .missing = .ok []
    ∧ GetTasks (.present .emptyBytes) = .ok []
    ∧ listTasks "" "" false .missing = .ok []
    ∧ listTasks "" "" false (.present .emptyBytes) = .ok []
    ∧ (∀ j : Json, decodeTasks j = none →
        GetTasks (.present (.wellFormed j)) = .error .corruptStore)
    ∧ GetTasks (.present .malformed) = .error .corruptStore
    ∧ listTasks "" "" false (.present .malformed) = .error .corruptStore := by
  refine ⟨rfl, rfl, rfl, rfl, ?_, rfl, rfl⟩
  intro j hj
  simp [GetTasks, hj]

/-- Witness for C5 at a concrete undecodable document. -/
theorem gettasks_boundary_witness :
    GetTasks (.present (.wellFormed (Json.num 3))) = .error .corruptStore :=
  gettasks_boundary.2.2.2.2.1 (Json.num 3) (by rfl)

/-- C7: Add with an empty description fails with ValidationError before
the store is touched, so the backing file is unchanged and a subsequent
List, with any filter, returns exactly the pre-call collection. -/
theorem add_empty_description_validation (priority : String) (due : Option Time)
    (now : Time) (fd : FileData) (o : WriteOutcome) :
    addTask "" priority due now fd o = (fd, .error .validation)
    ∧ (∀ (status priority2 : String) (showAll : Bool),
        listTasks status priority2 showAll (addTask "" priority due now fd o).1 =
          listTasks status priority2 showAll fd) := by
  refine ⟨by simp [addTask], ?_⟩
  intro status priority2 showAll
  simp [addTask]

lemma completeTask_success (fd : FileData) (tasks : List Task) (taskID : Int) (now : Time)
    (h : GetTasks fd = .ok tasks)
    (h1 : 1 ≤ taskID) (h2 : taskID ≤ (tasks.length : Int))
    (hc : (tasks.getD (taskID - 1).toNat default).Status ≠ "completed") :
    completeTask taskID now fd .success =
      (fdOf (tasks.set (taskID - 1).toNat
          ((tasks.getD (taskID - 1).toNat default).Complete now)),
        .ok (.completed ((tasks.getD (taskID - 1).toNat default).Complete now))) := by
  have hrange : ¬(taskID < 1 ∨ taskID > (tasks.length : Int)) := by omega
  have hc2 : ¬(tasks[taskID.toNat - 1]?.getD default).Status = "completed" := by
    simpa using hc
  simp [completeTask, h, hrange, hc2, SaveTasks, fdOf]

lemma storeConsistent_applyOp (fd : FileData) (op : Op)
    (h : StoreConsistent fd) : StoreConsistent (applyOp fd op) := by
  cases op with
  | addOp d p due now =>
    by_cases hd : d = ""
    · simpa [applyOp, addTask, hd] using h
    · cases hget : GetTasks fd with
      | error e =>
        simpa [applyOp, addTask, hd, AddTask, hget] using h
      | ok tasks =>
        intro ts hts t ht
        rw [show applyOp fd (.addOp d p due now) =
            (addTask d p due now fd .success).1 from rfl,
          addTask_success d p due now fd tasks hd hget] at hts
        rw [show (fdOf (tasks ++ [taskOfSpec tasks.length ⟨d, p, due, now⟩]),
            (Except.ok () : Except StoreError Unit)).1 =
            fdOf (tasks ++ [taskOfSpec tasks.length ⟨d, p, due, now⟩]) from rfl,
          GetTasks_fdOf] at hts
        have hts2 : ts = tasks ++ [taskOfSpec tasks.length ⟨d, p, due, now⟩] := by
          simpa [eq_comm] using hts
        subst hts2
        rcases List.mem_append.mp ht with h1 | h1
        · exact h tasks hget t h1
        · have : t = taskOfSpec tasks.length ⟨d, p, due, now⟩ := by simpa using h1
          subst this
          simp [TaskConsistent, taskOfSpec]
  | completeOp taskID now =>
    cases hget : GetTasks fd with
    | error e => simpa [applyOp, completeTask, hget] using h
    | ok tasks =>
      by_cases hrange : taskID < 1 ∨ taskID > (tasks.length : Int)
      · simpa [applyOp, completeTask, hget, hrange] using h
      · by_cases hc : (tasks.getD (taskID - 1).toNat default).Status = "completed"
        · have hc2 : (tasks[taskID.toNat - 1]?.getD default).Status = "completed" := by
            simpa using hc
          simpa [applyOp, completeTask, hget, hrange, hc2] using h
        · have h1 : 1 ≤ taskID := by omega
          have h2 : taskID ≤ (tasks.length : Int) := by omega
          intro ts hts t ht
          rw [show applyOp fd (.completeOp taskID now) =
              (completeTask taskID now fd .success).1 from rfl,
            completeTask_success fd tasks taskID now hget h1 h2 hc] at hts
          rw [show ∀ (a : FileData) (b : Except StoreError CompleteOutcome),
              (a, b).1 = a from fun a b => rfl, GetTasks_fdOf] at hts
          have hts2 : ts = tasks.set (taskID - 1).toNat
              ((tasks.getD (taskID - 1).toNat default).Complete now) := by
            simpa [eq_comm] using hts
          subst hts2
          rcases List.mem_or_eq_of_mem_set ht with h1m | h1m
          · exact h tasks hget t h1m
          · subst h1m
            simp [TaskConsistent, Task.Complete]

lemma storeConsistent_runOps (ops : List Op) :
    ∀ fd, StoreConsistent fd → StoreConsistent (runOps ops fd) := by
  induction ops with
  | nil => intro fd h; simpa [runOps] using h
  | cons op rest ih =>
    intro fd h
    rw [runOps]
    exact ih _ (storeConsistent_applyOp fd op h)

/-- C8: every task reachable through the store operations — created by
Add, possibly mutated by Complete, starting from an empty store —
records a completion instant exactly when its status is completed; the
task Add constructs is pending with no completion instant, and
Task.Complete sets the completed status and the completion instant in
the same transition. -/
theorem completed_at_iff_completed :
    (∀ (ops : List Op) (tasks : List Task),
      GetTasks (runOps ops .missing) = .ok tasks →
      ∀ t ∈ tasks, (t.CompletedAt ≠ none ↔ t.Status = "completed"))
    ∧ (∀ (d p : String) (due : Option Time) (now : Time),
        (newTask d p due now).Status = "pending"
          ∧ (newTask d p due now).CompletedAt = none)
    ∧ (∀ (t : Task) (now : Time),
        (t.Complete now).Status = "completed"
          ∧ (t.Complete now).CompletedAt = some now) := by
  refine ⟨?_, fun d p due now => ⟨rfl, rfl⟩, fun t now => ⟨rfl, rfl⟩⟩
  intro ops tasks hts t ht
  have hmiss : StoreConsistent .missing := by
    intro ts hts2 t2 ht2
    have : ts = [] := by simpa [GetTasks, eq_comm] using hts2
    subst this
    simp at ht2
  exact storeConsistent_runOps ops .missing hmiss tasks hts t ht

/-- Witness for C8 on a concrete one-add session. -/
theorem completed_at_iff_completed_witness :
    witnessTask.CompletedAt ≠ none ↔ witnessTask.Status = "completed" :=
  completed_at_iff_completed.1 [.addOp "Write tests" "low" none 0] [witnessTask]
    (by rfl) witnessTask (by simp)

/-- C6: on a store whose tasks carry id equal to their 1-based position
— as every store built through Add does — Complete with an id that no
stored task carries fails with NotFoundError (such an id is exactly one
outside the assigned range 1..size); and on any store holding 2 tasks,
Complete(5) fails with NotFoundError. -/
theorem complete_unknown_id_not_found :
    (∀ (fd : FileData) (tasks : List Task) (taskID : Int) (now : Time) (o : WriteOutcome),
      GetTasks fd = .ok tasks →
      (∀ (i : Nat) (hi : i < tasks.length), (tasks.get ⟨i, hi⟩).ID = (i : Int) + 1) →
      (∀ t ∈ tasks, t.ID ≠ taskID) →
      completeTask taskID now fd o = (fd, .error (.notFound taskID)))
    ∧ (∀ (fd : FileData) (tasks : List Task) (now : Time) (o : WriteOutcome),
      GetTasks fd = .ok tasks → tasks.length = 2 →
      completeTask 5 now fd o = (fd, .error (.notFound 5))) := by
  constructor
  · intro fd tasks taskID now o h hids hno
    have hrange : taskID < 1 ∨ taskID > (tasks.length : Int) := by
      by_contra hcon
      push_neg at hcon
      obtain ⟨hge, hle⟩ := hcon
      have hge1 : 1 ≤ taskID := by omega
      have hi : (taskID - 1).toNat < tasks.length := by omega
      have hmem : tasks.get ⟨(taskID - 1).toNat, hi⟩ ∈ tasks := List.get_mem _ _ _
      have hID := hids (taskID - 1).toNat hi
      have hcast : (((taskID - 1).toNat : Nat) : Int) = taskID - 1 := by omega
      rw [hcast] at hID
      exact hno _ hmem (by omega)
    simp [completeTask, h, hrange]
  · intro fd tasks now o h hl
    simp [completeTask, h, hl]

/-- Witness for C6: Complete(5) on a concrete store of 2 tasks. -/
theorem complete_unknown_id_not_found_witness :
    completeTask 5 0 (fdOf [sampleOne, sampleTwo]) .success =
      (fdOf [sampleOne, sampleTwo], .error (.notFound 5)) :=
  complete_unknown_id_not_found.2 (fdOf [sampleOne, sampleTwo])
    [sampleOne, sampleTwo] 0 .success (by rfl) (by rfl)

lemma PhaseFive.decodeTask_encodeTask_five (t : PhaseFive.Task) :
    PhaseFive.decodeTask (PhaseFive.encodeTask t) = some t := by
  obtain ⟨id, title, desc, comp, created⟩ := t
  rfl

lemma PhaseFive.decodeTaskList_map (ts : List PhaseFive.Task) :
    PhaseFive.decodeTaskList (ts.map PhaseFive.encodeTask) = some ts := by
  induction ts with
  | nil => rfl
  | cons t rest ih =>
    simp [PhaseFive.decodeTaskList, PhaseFive.decodeTask_encodeTask_five, ih]

lemma PhaseFive.loadTasks_saveTasks (ts : List PhaseFive.Task) (fd : FileData) :
    PhaseFive.loadTasks (PhaseFive.saveTasks ts fd .success).1 = .ok ts := by
  simp [PhaseFive.saveTasks, PhaseFive.loadTasks, PhaseFive.decodeTasks,
    PhaseFive.decodeTaskList_map]

/-- C9: persisting any collection and loading it back yields a
collection equal to the original in every field of every task — list
equality is fieldwise task equality, so optional fields absent before
the round trip (due_date, completed_at omitted under omitempty) are
absent after it; the same round trip holds for the phase-five save/load
demo. -/
theorem save_load_round_trip (tasks : List Task) (fd : FileData) :
    (SaveTasks tasks fd .success).2 = .ok ()
    ∧ GetTasks (SaveTasks tasks fd .success).1 = .ok tasks
    ∧ (∀ (ts5 : List PhaseFive.Task) (fd5 : FileData),
        PhaseFive.loadTasks (PhaseFive.saveTasks ts5 fd5 .success).1 = .ok ts5) := by
  refine ⟨rfl, ?_, fun ts5 fd5 => PhaseFive.loadTasks_saveTasks ts5 fd5⟩
  rw [SaveTasks_success]
  exact GetTasks_fdOf tasks

lemma find_matches_position (tasks : List Task) :
    ∀ n : Nat,
      (∀ (i : Nat) (hi : i < tasks.length), (tasks.get ⟨i, hi⟩).ID = (n : Int) + i + 1) →
      ∀ taskID : Nat, n + 1 ≤ taskID → taskID ≤ n + tasks.length →
      tasks.find? (fun t => t.ID == (taskID : Int)) =
        some (tasks.getD (taskID - n - 1) default) := by
  induction tasks with
  | nil =>
    intro n _ taskID hge hle
    simp at hle
    omega
  | cons t rest ih =>
    intro n hids taskID hge hle
    have ht : t.ID = (n : Int) + 1 := by
      have := hids 0 (by simp)
      simpa using this
    by_cases heq : taskID = n + 1
    · subst heq
      have hbeq : (t.ID == ((n + 1 : Nat) : Int)) = true := by
        rw [ht]
        simp
      rw [List.find?_cons_of_pos (p := fun x : Task => x.ID == ((n + 1 : Nat) : Int)) _ hbeq]
      have h0 : n + 1 - n - 1 = 0 := by omega
      rw [h0, List.getD_cons_zero]
    · have hbeq : ¬((t.ID == ((taskID : Nat) : Int)) = true) := by
        rw [ht]
        simp
        omega
      rw [List.find?_cons_of_neg (p := fun x : Task => x.ID == ((taskID : Nat) : Int)) _ hbeq]
      have hrest : ∀ (i : Nat) (hi : i < rest.length),
          (rest.get ⟨i, hi⟩).ID = ((n + 1 : Nat) : Int) + i + 1 := by
        intro i hi
        have h0 := hids (i + 1) (by simpa using hi)
        simp only [List.get_eq_getElem, List.getElem_cons_succ] at h0
        simp only [List.get_eq_getElem]
        push_cast at h0 ⊢
        omega
      have hfind := ih (n + 1) hrest taskID (by omega) (by simp at hle ⊢; omega)
      rw [hfind]
      have hidx : taskID - n - 1 = (taskID - (n + 1) - 1) + 1 := by omega
      rw [hidx, List.getD_cons_succ]

/-- C10: completeTask selects the task at position taskID - 1 of the
stored sequence, not the task whose id field equals the argument;
selection by position and selection by id field (the first match)
coincide for every valid id exactly when each stored task's id field
equals its 1-based position; every store built only via Add satisfies
that invariant, while an externally edited backing file need not: in the
store [id 5, id 6] no task has id field 1, yet Complete(1) completes the
task whose id field is 5. -/
theorem complete_selects_by_position :
    (∀ (fd : FileData) (tasks : List Task) (taskID : Int) (now : Time),
      GetTasks fd = .ok tasks → 1 ≤ taskID → taskID ≤ (tasks.length : Int) →
      (tasks.getD (taskID - 1).toNat default).Status ≠ "completed" →
      completeTask taskID now fd .success =
        (fdOf (tasks.set (taskID - 1).toNat
            ((tasks.getD (taskID - 1).toNat default).Complete now)),
          .ok (.completed ((tasks.getD (taskID - 1).toNat default).Complete now))))
    ∧ (∀ tasks : List Task,
        (∀ taskID : Nat, 1 ≤ taskID → taskID ≤ tasks.length →
          tasks.find? (fun t => t.ID == (taskID : Int)) =
            some (tasks.getD (taskID - 1) default))
        ↔ (∀ (i : Nat) (hi : i < tasks.length), (tasks.get ⟨i, hi⟩).ID = (i : Int) + 1))
    ∧ (∀ specs : List AddSpec, (∀ s ∈ specs, s.description ≠ "") →
        ∀ tasks, GetTasks (runAdds specs .missing) = .ok tasks →
        ∀ (i : Nat) (hi : i < tasks.length), (tasks.get ⟨i, hi⟩).ID = (i : Int) + 1)
    ∧ (editedStore.find? (fun t => t.ID == (1 : Int)) = none
        ∧ (completeTask 1 0 (fdOf editedStore) .success).2 =
            .ok (.completed (editedFive.Complete 0))
        ∧ editedFive.ID = 5) := by
  refine ⟨completeTask_success, ?_, ?_, by rfl, by rfl, by rfl⟩
  · intro tasks
    constructor
    · intro H i hi
      have h1 := H (i + 1) (by omega) (by omega)
      simp only [Nat.add_sub_cancel] at h1
      have h2 := List.find?_some h1
      rw [List.getD_eq_getElem tasks default hi] at h2
      have h3 : (tasks.get ⟨i, hi⟩).ID = ((i + 1 : Nat) : Int) := by
        simpa [List.get_eq_getElem] using h2
      rw [h3]
      push_cast
      ring
    · intro hids taskID h1 h2
      have hids0 : ∀ (i : Nat) (hi : i < tasks.length),
          (tasks.get ⟨i, hi⟩).ID = ((0 : Nat) : Int) + i + 1 := by
        intro i hi
        rw [hids i hi]
        push_cast
        ring
      have := find_matches_position tasks 0 hids0 taskID (by omega) (by omega)
      simpa using this
  · intro specs hne tasks htasks i hi
    have h0 := GetTasks_runAdds specs .missing [] rfl hne
    simp only [List.nil_append, List.length_nil] at h0
    rw [htasks] at h0
    have heq : tasks = expectedTasks 0 specs := by simpa [eq_comm] using h0
    subst heq
    have := expectedTasks_get_ID specs 0 i hi
    simpa using this

/-- Witness for C10: Complete(1) on a concrete pending single-task store
completes and saves the task at position 0. -/
theorem complete_selects_by_position_witness :
    completeTask 1 0 (fdOf [sampleOne]) .success =
      (fdOf ([sampleOne].set 0 (sampleOne.Complete 0)),
        .ok (.completed (sampleOne.Complete 0))) :=
  complete_selects_by_position.1 (fdOf [sampleOne]) [sampleOne] 1 0
    (by rfl) (by decide) (by decide) (by decide)

end TaskManager
